import Mathlib

/-
Verification of the outgoing-message engine of the Homa transport module
(homa_outgoing.c together with the declarations in homa_impl.h).

The embedding is shallow and sequential: the C structures become Lean
structures, linked packet chains become Lists, and the functions of
homa_outgoing.c become pure Lean functions that return the updated state.
Machine integers that the C code keeps non-negative by invariant are
modelled as Nat; get_cycles() is modelled as a stream of clock readings
(a function from a read index to a cycle count) so that every read of the
clock is explicit.  The cmpxchg loops always succeed on the first attempt
in this single-threaded model.
-/

namespace HomaSpec

/-- HOMA_MAX_MESSAGE_SIZE from homa_impl.h: largest permissible message. -/
def HOMA_MAX_MESSAGE_SIZE : Nat := 1000000

/-- HOMA_IPV4_HEADER_LENGTH from homa_impl.h. -/
def HOMA_IPV4_HEADER_LENGTH : Nat := 20

/-- HOMA_SKB_EXTRA from homa_impl.h. -/
def HOMA_SKB_EXTRA : Nat := 40

/-- HOMA_VLAN_HEADER from homa_impl.h. -/
def HOMA_VLAN_HEADER : Nat := 20

/-- HOMA_ETH_OVERHEAD from homa_impl.h. -/
def HOMA_ETH_OVERHEAD : Nat := 24

/-- HOMA_MAX_HEADER from homa_impl.h: all Homa packets must be at least
this long. -/
def HOMA_MAX_HEADER : Nat := 64

/-- sizeof(struct common_header): 2+2+4+4+1+1+2+2+2+8 bytes. -/
def sizeof_common_header : Nat := 28

/-- sizeof(struct data_segment): offset (4) + segment_length (4). -/
def sizeof_data_segment : Nat := 8

/-- sizeof(struct data_header): common_header (28) + message_length (4) +
incoming (4) + cutoff_version (2) + retransmit (1) + pad (1) + seg (8). -/
def sizeof_data_header : Nat := 48

/-- One struct data_segment of a DATA packet (byte-order conversions of the
wire format are elided: offset and segment_length hold the host values). -/
structure DataSeg where
  offset : Nat
  segment_length : Nat
deriving Repr, DecidableEq

/-- The part of a DATA sk_buff that homa_outgoing.c reads and writes:
its data segments, skb_shinfo gso_segs, the header fields message_length,
incoming and retransmit, and the transport-level length
(skb->tail - skb->transport_header). -/
structure Skb where
  segs : List DataSeg
  gso_segs : Nat
  message_length : Nat
  incoming : Nat
  retransmit : Nat
  transport_len : Nat
deriving Repr, DecidableEq

/-- homa_data_offset from homa_impl.h: the offset within the message of the
first byte in a data packet, i.e. the offset of the first data_segment
(the headD default is never reached for packets built by homa_fill_packets,
which always have at least one segment). -/
def homa_data_offset (skb : Skb) : Nat :=
  (skb.segs.headD ⟨0, 0⟩).offset

/-- struct homa_message_out from homa_impl.h.  The packet chain linked
through homa_next_skb becomes a List; next_packet is modelled as the suffix
of the chain that has not been transmitted yet. -/
structure homa_message_out where
  length : Nat
  packets : List Skb
  num_skbs : Nat
  next_packet : List Skb
  unscheduled : Nat
  granted : Nat
  sched_priority : Nat
deriving Repr, DecidableEq

/-- The offset-within-message of the first untransmitted packet, or 0 when
the whole message has been transmitted (next_packet empty). -/
def next_offset (m : homa_message_out) : Nat :=
  match m.next_packet with
  | [] => 0
  | skb :: _ => homa_data_offset skb

/-- The data offset of the first packet of a chain (0 for the empty chain). -/
def first_offset (skbs : List Skb) : Nat :=
  match skbs with
  | [] => 0
  | skb :: _ => homa_data_offset skb

/-- homa_message_out_init from homa_outgoing.c.  rtt_bytes stands for
rpc->hsk->homa->rtt_bytes.  The scan over the packets that fills in the
remaining header fields is modelled for the fields this file tracks
(message_length, retransmit); sport, dport, id, doff and cutoff_version are
addressing data that no claim mentions. -/
def homa_message_out_init (rtt_bytes : Nat) (skbs : List Skb) (len : Nat) :
    homa_message_out :=
  let filled := skbs.map (fun s => { s with message_length := len, retransmit := 0 })
  { length := len
    packets := filled
    num_skbs := skbs.length
    next_packet := filled
    unscheduled := rtt_bytes
    granted := if rtt_bytes > len then len else rtt_bytes
    sched_priority := 0 }

/-- homa_message_out_reset from homa_outgoing.c.  Every sk_buff is copied
(the copy keeps the segment data and gso fields and clears retransmit) and
the allocation of each copy is assumed to succeed, so the error path that
drops a packet on ENOMEM is not taken. -/
def homa_message_out_reset (m : homa_message_out) : homa_message_out :=
  let copied := m.packets.map (fun s => { s with retransmit := 0 })
  { m with
    packets := copied
    next_packet := copied
    granted := if m.unscheduled > m.length then m.length else m.unscheduled }

/-- The fields of struct homa (homa_impl.h) that homa_outgoing.c reads:
the NIC-queue model plus the tunables.  flag_dont_throttle models the
HOMA_FLAG_DONT_THROTTLE bit of homa->flags. -/
structure homa_state where
  cycles_per_kbyte : Nat
  max_nic_queue_cycles : Nat
  link_idle_time : Nat
  flag_dont_throttle : Bool
  throttle_min_bytes : Nat
  rtt_bytes : Nat
  max_gso_size : Nat
deriving Repr, DecidableEq

/-- The number of wire bytes homa_check_nic_queue charges for a packet:
its transport-level length plus per-packet Ethernet, VLAN and IP overhead,
with the overhead (and the replicated data_header bytes) repeated once per
additional offload segment. -/
def nic_queue_bytes (skb : Skb) : Nat :=
  let segs := skb.gso_segs
  let bytes := skb.transport_len + HOMA_IPV4_HEADER_LENGTH + HOMA_VLAN_HEADER
      + HOMA_ETH_OVERHEAD
  if segs > 0 then
    bytes + (segs - 1) * (sizeof_data_header - sizeof_data_segment
        + HOMA_IPV4_HEADER_LENGTH + HOMA_VLAN_HEADER + HOMA_ETH_OVERHEAD)
  else bytes

/-- homa_check_nic_queue from homa_outgoing.c, at one clock reading.
In this sequential model the cmpxchg on link_idle_time succeeds on the
first loop iteration, so the function reads the clock exactly once.
Returns the 0-or-nonzero result as a Bool together with the updated
homa state. -/
def homa_check_nic_queue (homa : homa_state) (skb : Skb) (force : Bool)
    (clock : Nat) : Bool × homa_state :=
  let cycles_for_packet := nic_queue_bytes skb * homa.cycles_per_kbyte / 1000
  let idle := homa.link_idle_time
  if clock + homa.max_nic_queue_cycles < idle ∧ force = false ∧
      homa.flag_dont_throttle = false then
    (false, homa)
  else
    let new_idle := if idle < clock then clock + cycles_for_packet
        else idle + cycles_for_packet
    (true, { homa with link_idle_time := new_idle })

/-- A concrete one-packet chain used by closed witnesses: a single DATA
packet holding bytes 0..99 of a 100-byte message. -/
def sampleSkb : Skb :=
  { segs := [⟨0, 100⟩], gso_segs := 1, message_length := 100,
    incoming := 100, retransmit := 0, transport_len := 148 }

/-- C7: immediately after homa_message_out_init, and immediately after
homa_message_out_reset, granted = min(unscheduled, length). -/
theorem granted_eq_min_unscheduled_length (rtt_bytes len : Nat)
    (skbs : List Skb) (m : homa_message_out) :
    (homa_message_out_init rtt_bytes skbs len).granted
        = min (homa_message_out_init rtt_bytes skbs len).unscheduled
            (homa_message_out_init rtt_bytes skbs len).length ∧
    (homa_message_out_reset m).granted
        = min (homa_message_out_reset m).unscheduled
            (homa_message_out_reset m).length := by
  constructor
  · simp only [homa_message_out_init]
    split <;> omega
  · simp only [homa_message_out_reset]
    split <;> omega

/-- C1 (counterexample): for a 100-byte message initialized when
rtt_bytes = 10000, the unscheduled field exceeds the message length, so the
claimed invariant "unscheduled ≤ L" is false immediately after
homa_message_out_init (the code documents that unscheduled may be larger
than length). -/
theorem unscheduled_can_exceed_length :
    (homa_message_out_init 10000 [sampleSkb] 100).length
      < (homa_message_out_init 10000 [sampleSkb] 100).unscheduled := by
  decide

/-- C1 (amended): immediately after homa_message_out_init, and immediately
after homa_message_out_reset of a message whose packet chain starts at
offset 0, the next-packet offset is 0, hence 0 ≤ next ≤ granted ≤ L.
The bound unscheduled ≤ L does not hold (see the counterexample);
unscheduled is clamped to L only when copied into granted. -/
theorem next_le_granted_le_length_after_init_reset (rtt_bytes len : Nat)
    (skbs : List Skb) (m : homa_message_out)
    (h1 : first_offset skbs = 0) (h2 : first_offset m.packets = 0) :
    (next_offset (homa_message_out_init rtt_bytes skbs len) = 0 ∧
     next_offset (homa_message_out_init rtt_bytes skbs len)
        ≤ (homa_message_out_init rtt_bytes skbs len).granted ∧
     (homa_message_out_init rtt_bytes skbs len).granted
        ≤ (homa_message_out_init rtt_bytes skbs len).length) ∧
    (next_offset (homa_message_out_reset m) = 0 ∧
     next_offset (homa_message_out_reset m)
        ≤ (homa_message_out_reset m).granted ∧
     (homa_message_out_reset m).granted ≤ (homa_message_out_reset m).length) := by
  have init_zero : next_offset (homa_message_out_init rtt_bytes skbs len) = 0 := by
    cases skbs with
    | nil => simp [homa_message_out_init, next_offset]
    | cons s rest =>
        simp only [first_offset] at h1
        simp [homa_message_out_init, next_offset, homa_data_offset] at h1 ⊢
        simpa [homa_data_offset] using h1
  have reset_zero : next_offset (homa_message_out_reset m) = 0 := by
    cases hp : m.packets with
    | nil => simp [homa_message_out_reset, next_offset, hp]
    | cons s rest =>
        simp only [first_offset, hp] at h2
        simp [homa_message_out_reset, next_offset, hp, homa_data_offset] at h2 ⊢
        simpa [homa_data_offset] using h2
  refine ⟨⟨init_zero, ?_, ?_⟩, reset_zero, ?_, ?_⟩
  · simp [init_zero]
  · simp only [homa_message_out_init]
    split <;> omega
  · simp [reset_zero]
  · simp only [homa_message_out_reset]
    split <;> omega

/-- C1 (witness): the amended invariant evaluated on a concrete 100-byte
message. -/
theorem next_le_granted_le_length_after_init_reset_witness :
    first_offset [sampleSkb] = 0 ∧
    first_offset (homa_message_out_init 10000 [sampleSkb] 100).packets = 0 ∧
    ((next_offset (homa_message_out_init 10000 [sampleSkb] 100) = 0 ∧
      next_offset (homa_message_out_init 10000 [sampleSkb] 100)
         ≤ (homa_message_out_init 10000 [sampleSkb] 100).granted ∧
      (homa_message_out_init 10000 [sampleSkb] 100).granted
         ≤ (homa_message_out_init 10000 [sampleSkb] 100).length) ∧
     (next_offset (homa_message_out_reset (homa_message_out_init 10000 [sampleSkb] 100)) = 0 ∧
      next_offset (homa_message_out_reset (homa_message_out_init 10000 [sampleSkb] 100))
         ≤ (homa_message_out_reset (homa_message_out_init 10000 [sampleSkb] 100)).granted ∧
      (homa_message_out_reset (homa_message_out_init 10000 [sampleSkb] 100)).granted
         ≤ (homa_message_out_reset (homa_message_out_init 10000 [sampleSkb] 100)).length)) :=
  ⟨by decide, by decide,
    next_le_granted_le_length_after_init_reset 10000 100 [sampleSkb]
      (homa_message_out_init 10000 [sampleSkb] 100) (by decide) (by decide)⟩

/-- C3 (counterexample): with the HOMA_FLAG_DONT_THROTTLE bit of
homa->flags set, homa_check_nic_queue permits (returns nonzero) even though
force is false and now + max_nic_queue_cycles < link_idle_time, so the
claimed if-and-only-if characterization of refusal is false. -/
theorem check_nic_queue_flag_breaks_iff :
    (homa_check_nic_queue
        { cycles_per_kbyte := 0, max_nic_queue_cycles := 0,
          link_idle_time := 10, flag_dont_throttle := true,
          throttle_min_bytes := 0, rtt_bytes := 0, max_gso_size := 0 }
        sampleSkb false 0).1 = true ∧
    0 + (0 : Nat) < 10 := by
  decide

/-- C3 (amended): homa_check_nic_queue refuses (returns 0) if and only if
force is false, the HOMA_FLAG_DONT_THROTTLE bit is clear, and
now + max_nic_queue_cycles < link_idle_time; when it permits it updates
link_idle_time to max(link_idle_time, now) + cost where
cost = bytes * cycles_per_kbyte / 1000 and, for an offloaded packet with
segs > 0 segments, bytes charges the Ethernet + VLAN + IP overhead once per
segment (plus the replicated data_header bytes for each extra segment);
refusal leaves the state unchanged. -/
theorem check_nic_queue_spec (homa : homa_state) (skb : Skb) (force : Bool)
    (clock : Nat) (hsegs : 0 < skb.gso_segs) :
    ((homa_check_nic_queue homa skb force clock).1 = false ↔
      (force = false ∧ homa.flag_dont_throttle = false ∧
       clock + homa.max_nic_queue_cycles < homa.link_idle_time)) ∧
    ((homa_check_nic_queue homa skb force clock).1 = true →
      (homa_check_nic_queue homa skb force clock).2.link_idle_time
        = max homa.link_idle_time clock
          + (skb.transport_len
              + skb.gso_segs * (HOMA_IPV4_HEADER_LENGTH + HOMA_VLAN_HEADER
                  + HOMA_ETH_OVERHEAD)
              + (skb.gso_segs - 1) * (sizeof_data_header - sizeof_data_segment))
            * homa.cycles_per_kbyte / 1000) ∧
    ((homa_check_nic_queue homa skb force clock).1 = false →
      (homa_check_nic_queue homa skb force clock).2 = homa) := by
  have hbytes : nic_queue_bytes skb
      = skb.transport_len
        + skb.gso_segs * (HOMA_IPV4_HEADER_LENGTH + HOMA_VLAN_HEADER
            + HOMA_ETH_OVERHEAD)
        + (skb.gso_segs - 1) * (sizeof_data_header - sizeof_data_segment) := by
    simp only [nic_queue_bytes, if_pos hsegs, HOMA_IPV4_HEADER_LENGTH,
      HOMA_VLAN_HEADER, HOMA_ETH_OVERHEAD, sizeof_data_header,
      sizeof_data_segment]
    omega
  by_cases hc : clock + homa.max_nic_queue_cycles < homa.link_idle_time ∧
      force = false ∧ homa.flag_dont_throttle = false
  · refine ⟨?_, ?_, ?_⟩
    · simp only [homa_check_nic_queue, if_pos hc]
      exact iff_of_true (by simp) ⟨hc.2.1, hc.2.2, hc.1⟩
    · intro ht
      simp only [homa_check_nic_queue, if_pos hc] at ht
      exact absurd ht (by simp)
    · intro _
      simp only [homa_check_nic_queue, if_pos hc]
  · refine ⟨?_, ?_, ?_⟩
    · simp only [homa_check_nic_queue, if_neg hc]
      refine ⟨fun h => absurd h (by simp), fun h => absurd ⟨h.2.2, h.1, h.2.1⟩ hc⟩
    · intro _
      simp only [homa_check_nic_queue, if_neg hc, ← hbytes]
      rcases Nat.lt_or_ge homa.link_idle_time clock with h | h
      · rw [if_pos h, Nat.max_eq_right (Nat.le_of_lt h)]
      · rw [if_neg (Nat.not_lt.mpr h), Nat.max_eq_left h]
    · intro hf
      simp only [homa_check_nic_queue, if_neg hc] at hf
      exact absurd hf (by simp)

/-- C3 (witness): the amended characterization evaluated at a concrete
state: a refused packet (queue over cap) and a permitted one. -/
theorem check_nic_queue_spec_witness :
    0 < sampleSkb.gso_segs ∧
    (((homa_check_nic_queue
        { cycles_per_kbyte := 1000, max_nic_queue_cycles := 5,
          link_idle_time := 100, flag_dont_throttle := false,
          throttle_min_bytes := 0, rtt_bytes := 0, max_gso_size := 0 }
        sampleSkb false 7).1 = false ↔
      (false = false ∧ false = false ∧ 7 + 5 < 100)) ∧
     ((homa_check_nic_queue
        { cycles_per_kbyte := 1000, max_nic_queue_cycles := 5,
          link_idle_time := 100, flag_dont_throttle := false,
          throttle_min_bytes := 0, rtt_bytes := 0, max_gso_size := 0 }
        sampleSkb false 7).1 = true →
      (homa_check_nic_queue
        { cycles_per_kbyte := 1000, max_nic_queue_cycles := 5,
          link_idle_time := 100, flag_dont_throttle := false,
          throttle_min_bytes := 0, rtt_bytes := 0, max_gso_size := 0 }
        sampleSkb false 7).2.link_idle_time
        = max 100 7
          + (sampleSkb.transport_len
              + sampleSkb.gso_segs * (HOMA_IPV4_HEADER_LENGTH + HOMA_VLAN_HEADER
                  + HOMA_ETH_OVERHEAD)
              + (sampleSkb.gso_segs - 1) * (sizeof_data_header - sizeof_data_segment))
            * 1000 / 1000) ∧
     ((homa_check_nic_queue
        { cycles_per_kbyte := 1000, max_nic_queue_cycles := 5,
          link_idle_time := 100, flag_dont_throttle := false,
          throttle_min_bytes := 0, rtt_bytes := 0, max_gso_size := 0 }
        sampleSkb false 7).1 = false →
      (homa_check_nic_queue
        { cycles_per_kbyte := 1000, max_nic_queue_cycles := 5,
          link_idle_time := 100, flag_dont_throttle := false,
          throttle_min_bytes := 0, rtt_bytes := 0, max_gso_size := 0 }
        sampleSkb false 7).2
        = { cycles_per_kbyte := 1000, max_nic_queue_cycles := 5,
            link_idle_time := 100, flag_dont_throttle := false,
            throttle_min_bytes := 0, rtt_bytes := 0, max_gso_size := 0 })) :=
  ⟨by decide,
    check_nic_queue_spec
      { cycles_per_kbyte := 1000, max_nic_queue_cycles := 5,
        link_idle_time := 100, flag_dont_throttle := false,
        throttle_min_bytes := 0, rtt_bytes := 0, max_gso_size := 0 }
      sampleSkb false 7 (by decide)⟩

/-- Result state of homa_xmit_data: the packets handed to
__homa_xmit_data in order, the new msgout.next_packet suffix, whether the
RPC was parked on the throttled list (homa_add_to_throttled called), the
updated homa state and the next unread clock index. -/
structure XmitResult where
  sent : List Skb
  rest : List Skb
  parked : Bool
  homa : homa_state
  idx : Nat
deriving Repr, DecidableEq

/-- homa_xmit_data from homa_outgoing.c, for an RPC whose msgout has the
given length and granted values and next_packet chain.  clock_seq idx is
the value get_cycles() returns at the idx-th read.  The priority
computation (homa_unsched_priority / sched_priority) only selects the VLAN
priority of the transmitted packet and is not tracked.  Transmitting a
packet appends it to sent and drops it from the chain; a refused
NIC-queue check parks the RPC (homa_add_to_throttled) and stops. -/
def homa_xmit_data (clock_seq : Nat → Nat) (len granted : Nat) :
    homa_state → List Skb → Bool → Nat → XmitResult
  | homa, [], _, idx => ⟨[], [], false, homa, idx⟩
  | homa, skb :: rest, force, idx =>
    if granted ≤ homa_data_offset skb then ⟨[], skb :: rest, false, homa, idx⟩
    else if homa.throttle_min_bytes ≤ len - homa_data_offset skb then
      if (homa_check_nic_queue homa skb force (clock_seq idx)).1 then
        let r := homa_xmit_data clock_seq len granted
            (homa_check_nic_queue homa skb force (clock_seq idx)).2 rest false (idx + 1)
        ⟨skb :: r.sent, r.rest, r.parked, r.homa, r.idx⟩
      else ⟨[], skb :: rest, true,
            (homa_check_nic_queue homa skb force (clock_seq idx)).2, idx + 1⟩
    else
      let r := homa_xmit_data clock_seq len granted homa rest false idx
      ⟨skb :: r.sent, r.rest, r.parked, r.homa, r.idx⟩

/-- A refused NIC-queue check leaves the homa state unchanged and can only
happen with force = false. -/
lemma check_nic_queue_refused (homa : homa_state) (skb : Skb) (force : Bool)
    (clock : Nat) (h : (homa_check_nic_queue homa skb force clock).1 = false) :
    (homa_check_nic_queue homa skb force clock).2 = homa ∧ force = false := by
  by_cases hc : clock + homa.max_nic_queue_cycles < homa.link_idle_time ∧
      force = false ∧ homa.flag_dont_throttle = false
  · exact ⟨by simp only [homa_check_nic_queue, if_pos hc], hc.2.1⟩
  · exfalso
    simp only [homa_check_nic_queue, if_neg hc] at h
    exact absurd h (by simp)

/-- homa_check_nic_queue only writes link_idle_time. -/
lemma check_nic_queue_preserves_tmin (homa : homa_state) (skb : Skb)
    (force : Bool) (clock : Nat) :
    (homa_check_nic_queue homa skb force clock).2.throttle_min_bytes
      = homa.throttle_min_bytes := by
  simp only [homa_check_nic_queue]
  split <;> rfl

/-- homa_xmit_data transmits a prefix of the chain and leaves the
corresponding suffix as the new next_packet. -/
lemma homa_xmit_data_take_drop (clock_seq : Nat → Nat) (len granted : Nat) :
    ∀ (chain : List Skb) (homa : homa_state) (force : Bool) (idx : Nat),
    ∃ n, (homa_xmit_data clock_seq len granted homa chain force idx).sent
          = chain.take n ∧
        (homa_xmit_data clock_seq len granted homa chain force idx).rest
          = chain.drop n := by
  intro chain
  induction chain with
  | nil => intro homa force idx; exact ⟨0, rfl, rfl⟩
  | cons skb rest ih =>
    intro homa force idx
    simp only [homa_xmit_data]
    by_cases h1 : granted ≤ homa_data_offset skb
    · rw [if_pos h1]; exact ⟨0, rfl, rfl⟩
    · rw [if_neg h1]
      by_cases h2 : homa.throttle_min_bytes ≤ len - homa_data_offset skb
      · rw [if_pos h2]
        by_cases h3 : (homa_check_nic_queue homa skb force (clock_seq idx)).1 = true
        · rw [if_pos h3]
          obtain ⟨n, hs, hr⟩ := ih
            (homa_check_nic_queue homa skb force (clock_seq idx)).2 false (idx + 1)
          exact ⟨n + 1, by simp [hs], by simp [hr]⟩
        · rw [if_neg h3]; exact ⟨0, rfl, rfl⟩
      · rw [if_neg h2]
        obtain ⟨n, hs, hr⟩ := ih homa false idx
        exact ⟨n + 1, by simp [hs], by simp [hr]⟩

/-- Every packet homa_xmit_data transmits has offset below granted. -/
lemma homa_xmit_data_sent_lt_granted (clock_seq : Nat → Nat)
    (len granted : Nat) :
    ∀ (chain : List Skb) (homa : homa_state) (force : Bool) (idx : Nat),
    ∀ p ∈ (homa_xmit_data clock_seq len granted homa chain force idx).sent,
      homa_data_offset p < granted := by
  intro chain
  induction chain with
  | nil => intro homa force idx p hp; simp [homa_xmit_data] at hp
  | cons skb rest ih =>
    intro homa force idx p hp
    simp only [homa_xmit_data] at hp
    by_cases h1 : granted ≤ homa_data_offset skb
    · rw [if_pos h1] at hp; simp at hp
    · rw [if_neg h1] at hp
      by_cases h2 : homa.throttle_min_bytes ≤ len - homa_data_offset skb
      · rw [if_pos h2] at hp
        by_cases h3 : (homa_check_nic_queue homa skb force (clock_seq idx)).1 = true
        · rw [if_pos h3] at hp
          simp only [List.mem_cons] at hp
          rcases hp with rfl | hp
          · omega
          · exact ih _ false (idx + 1) p hp
        · rw [if_neg h3] at hp; simp at hp
      · rw [if_neg h2] at hp
        simp only [List.mem_cons] at hp
        rcases hp with rfl | hp
        · omega
        · exact ih homa false idx p hp

/-- When homa_xmit_data parks the RPC, the head of the remaining chain is a
packet below the grant frontier whose remaining message bytes are at least
throttle_min_bytes, and the NIC-queue check refused it: re-running
homa_check_nic_queue in the final state on the last clock reading (with
force = false, which refusal implies) refuses again. -/
lemma homa_xmit_data_parked (clock_seq : Nat → Nat) (len granted : Nat) :
    ∀ (chain : List Skb) (homa : homa_state) (force : Bool) (idx : Nat),
    (homa_xmit_data clock_seq len granted homa chain force idx).parked = true →
    ∃ hd tl, (homa_xmit_data clock_seq len granted homa chain force idx).rest
          = hd :: tl ∧
      homa_data_offset hd < granted ∧
      homa.throttle_min_bytes ≤ len - homa_data_offset hd ∧
      idx < (homa_xmit_data clock_seq len granted homa chain force idx).idx ∧
      (homa_check_nic_queue
          (homa_xmit_data clock_seq len granted homa chain force idx).homa hd false
          (clock_seq ((homa_xmit_data clock_seq len granted homa chain force idx).idx - 1))).1
        = false := by
  intro chain
  induction chain with
  | nil => intro homa force idx hp; simp [homa_xmit_data] at hp
  | cons skb rest ih =>
    intro homa force idx hp
    simp only [homa_xmit_data] at hp ⊢
    by_cases h1 : granted ≤ homa_data_offset skb
    · rw [if_pos h1] at hp; simp at hp
    · rw [if_neg h1] at hp ⊢
      by_cases h2 : homa.throttle_min_bytes ≤ len - homa_data_offset skb
      · rw [if_pos h2] at hp ⊢
        by_cases h3 : (homa_check_nic_queue homa skb force (clock_seq idx)).1 = true
        · rw [if_pos h3] at hp ⊢
          obtain ⟨hd, tl, hrest, hlt, htm, hidx, hck⟩ := ih
            (homa_check_nic_queue homa skb force (clock_seq idx)).2 false (idx + 1) hp
          refine ⟨hd, tl, hrest, hlt, ?_, Nat.lt_of_le_of_lt (Nat.le_succ idx) hidx, hck⟩
          rwa [check_nic_queue_preserves_tmin] at htm
        · rw [if_neg h3] at hp ⊢
          have hfalse : (homa_check_nic_queue homa skb force (clock_seq idx)).1 = false := by
            simpa using h3
          obtain ⟨heq, hforce⟩ := check_nic_queue_refused homa skb force (clock_seq idx) hfalse
          subst hforce
          refine ⟨skb, rest, rfl, by omega, h2, Nat.lt_succ_self idx, ?_⟩
          show (homa_check_nic_queue
              ((homa_check_nic_queue homa skb false (clock_seq idx)).2) skb false
              (clock_seq (idx + 1 - 1))).1 = false
          rw [heq]
          exact hfalse
      · rw [if_neg h2] at hp ⊢
        obtain ⟨hd, tl, hrest, hlt, htm, hidx, hck⟩ := ih homa false idx hp
        exact ⟨hd, tl, hrest, hlt, htm, hidx, hck⟩

/-- When homa_xmit_data stops without parking, either the whole chain was
transmitted or the head of the remainder is at or beyond the grant
frontier. -/
lemma homa_xmit_data_not_parked (clock_seq : Nat → Nat) (len granted : Nat) :
    ∀ (chain : List Skb) (homa : homa_state) (force : Bool) (idx : Nat),
    (homa_xmit_data clock_seq len granted homa chain force idx).parked = false →
    (homa_xmit_data clock_seq len granted homa chain force idx).rest = [] ∨
    ∃ hd tl, (homa_xmit_data clock_seq len granted homa chain force idx).rest
          = hd :: tl ∧ granted ≤ homa_data_offset hd := by
  intro chain
  induction chain with
  | nil => intro homa force idx _; left; simp [homa_xmit_data]
  | cons skb rest ih =>
    intro homa force idx hp
    simp only [homa_xmit_data] at hp ⊢
    by_cases h1 : granted ≤ homa_data_offset skb
    · rw [if_pos h1] at hp ⊢
      exact Or.inr ⟨skb, rest, rfl, h1⟩
    · rw [if_neg h1] at hp ⊢
      by_cases h2 : homa.throttle_min_bytes ≤ len - homa_data_offset skb
      · rw [if_pos h2] at hp ⊢
        by_cases h3 : (homa_check_nic_queue homa skb force (clock_seq idx)).1 = true
        · rw [if_pos h3] at hp ⊢
          rcases ih (homa_check_nic_queue homa skb force (clock_seq idx)).2 false
            (idx + 1) (by simpa using hp) with h | ⟨hd, tl, hrest, hge⟩
          · left; simpa using h
          · exact Or.inr ⟨hd, tl, by simpa using hrest, hge⟩
        · rw [if_neg h3] at hp; simp at hp
      · rw [if_neg h2] at hp ⊢
        rcases ih homa false idx (by simpa using hp) with h | ⟨hd, tl, hrest, hge⟩
        · left; simpa using h
        · exact Or.inr ⟨hd, tl, by simpa using hrest, hge⟩

/-- C2: homa_xmit_data transmits an in-order prefix of the pending chain
(hence, for a message whose packets are in strictly increasing offset
order, in strictly increasing offset order); it transmits no packet whose
offset is at or beyond granted; if it parks the RPC on the throttled list
it stops at a packet below the grant frontier whose remaining bytes are at
least throttle_min_bytes and which the NIC-queue check refused; and if it
stops without parking then either everything was sent or the next packet
is at or beyond the grant frontier. -/
theorem homa_xmit_data_spec (clock_seq : Nat → Nat) (len granted : Nat)
    (chain : List Skb) (homa : homa_state) (force : Bool) (idx : Nat)
    (hsort : chain.Pairwise (fun a b => homa_data_offset a < homa_data_offset b)) :
    (∃ n, (homa_xmit_data clock_seq len granted homa chain force idx).sent
            = chain.take n ∧
          (homa_xmit_data clock_seq len granted homa chain force idx).rest
            = chain.drop n) ∧
    (homa_xmit_data clock_seq len granted homa chain force idx).sent.Pairwise
        (fun a b => homa_data_offset a < homa_data_offset b) ∧
    (∀ p ∈ (homa_xmit_data clock_seq len granted homa chain force idx).sent,
        homa_data_offset p < granted) ∧
    ((homa_xmit_data clock_seq len granted homa chain force idx).parked = true →
      ∃ hd tl, (homa_xmit_data clock_seq len granted homa chain force idx).rest
            = hd :: tl ∧
        homa_data_offset hd < granted ∧
        homa.throttle_min_bytes ≤ len - homa_data_offset hd ∧
        idx < (homa_xmit_data clock_seq len granted homa chain force idx).idx ∧
        (homa_check_nic_queue
            (homa_xmit_data clock_seq len granted homa chain force idx).homa hd false
            (clock_seq ((homa_xmit_data clock_seq len granted homa chain force idx).idx - 1))).1
          = false) ∧
    ((homa_xmit_data clock_seq len granted homa chain force idx).parked = false →
      (homa_xmit_data clock_seq len granted homa chain force idx).rest = [] ∨
      ∃ hd tl, (homa_xmit_data clock_seq len granted homa chain force idx).rest
            = hd :: tl ∧ granted ≤ homa_data_offset hd) := by
  obtain ⟨n, hs, hr⟩ := homa_xmit_data_take_drop clock_seq len granted chain homa force idx
  refine ⟨⟨n, hs, hr⟩, ?_, homa_xmit_data_sent_lt_granted clock_seq len granted chain homa force idx,
    homa_xmit_data_parked clock_seq len granted chain homa force idx,
    homa_xmit_data_not_parked clock_seq len granted chain homa force idx⟩
  rw [hs]
  exact hsort.sublist (List.take_sublist n chain)

/-- Concrete homa state for witnesses: link idle, flag clear,
throttle_min_bytes = 1000. -/
def sampleHoma : homa_state :=
  { cycles_per_kbyte := 8000, max_nic_queue_cycles := 10000,
    link_idle_time := 0, flag_dont_throttle := false,
    throttle_min_bytes := 1000, rtt_bytes := 10000, max_gso_size := 10000 }

/-- Concrete packet: bytes 0..49 of a 100-byte message. -/
def sampleSkbA : Skb :=
  { segs := [⟨0, 50⟩], gso_segs := 1, message_length := 100,
    incoming := 100, retransmit := 0, transport_len := 98 }

/-- Concrete packet: bytes 50..99 of a 100-byte message. -/
def sampleSkbB : Skb :=
  { segs := [⟨50, 50⟩], gso_segs := 1, message_length := 100,
    incoming := 100, retransmit := 0, transport_len := 98 }

/-- C2 (witness): homa_xmit_data evaluated on a concrete fully granted
two-packet message; every transmitted packet is below the grant frontier. -/
theorem homa_xmit_data_spec_witness :
    ([sampleSkbA, sampleSkbB].Pairwise
        (fun a b => homa_data_offset a < homa_data_offset b)) ∧
    (∀ p ∈ (homa_xmit_data (fun _ => 0) 100 100 sampleHoma
        [sampleSkbA, sampleSkbB] false 0).sent, homa_data_offset p < 100) :=
  ⟨by decide,
    (homa_xmit_data_spec (fun _ => 0) 100 100 [sampleSkbA, sampleSkbB]
      sampleHoma false 0 (by decide)).2.2.1⟩

/-- The part of struct homa_rpc (homa_impl.h) that the outgoing path uses:
an identifier and the outbound message. -/
structure homa_rpc where
  id : Nat
  msgout : homa_message_out
deriving Repr, DecidableEq

/-- The removal condition of homa_pacer_xmit after its call to
homa_xmit_data: the RPC has nothing more to transmit right now when
next_packet is empty or its offset is at or beyond granted. -/
def pacer_exhausted (granted : Nat) : List Skb → Bool
  | [] => true
  | skb :: _ => decide (granted ≤ homa_data_offset skb)

/-- Result of one iteration of the packet-sending loop of
homa_pacer_xmit. -/
structure PacerResult where
  homa : homa_state
  throttled : List homa_rpc
  sent : List Skb
  idx : Nat
deriving Repr, DecidableEq

/-- One iteration of the for loop of homa_pacer_xmit from homa_outgoing.c,
after the wait for the NIC queue: lock the first RPC of the throttled
list, call homa_xmit_data with force = true, and unlink the RPC from the
throttled list when it has nothing more to transmit.  The
homa_add_to_throttled call that a refused NIC-queue check makes inside
homa_xmit_data returns immediately here because the RPC is already linked
(it is the head of the throttled list), so it does not change the list. -/
def homa_pacer_step (clock_seq : Nat → Nat) (homa : homa_state) (idx : Nat) :
    List homa_rpc → PacerResult
  | [] => ⟨homa, [], [], idx⟩
  | rpc :: rest =>
    let r := homa_xmit_data clock_seq rpc.msgout.length rpc.msgout.granted homa
        rpc.msgout.next_packet true idx
    if pacer_exhausted rpc.msgout.granted r.rest then
      ⟨r.homa, rest, r.sent, r.idx⟩
    else
      ⟨r.homa, { rpc with msgout := { rpc.msgout with next_packet := r.rest } } :: rest,
        r.sent, r.idx⟩

/-- With force = true, homa_check_nic_queue always permits. -/
lemma check_nic_queue_force (homa : homa_state) (skb : Skb) (clock : Nat) :
    (homa_check_nic_queue homa skb true clock).1 = true := by
  simp only [homa_check_nic_queue]
  split
  · next hc => exact absurd hc.2.1 (by simp)
  · rfl

/-- With force = true, homa_xmit_data transmits at least one packet
whenever the head of the chain is below the grant frontier. -/
lemma homa_xmit_data_force_sends (clock_seq : Nat → Nat) (len granted : Nat)
    (homa : homa_state) (idx : Nat) (hd : Skb) (tl : List Skb)
    (h2 : homa_data_offset hd < granted) :
    (homa_xmit_data clock_seq len granted homa (hd :: tl) true idx).sent ≠ [] := by
  simp only [homa_xmit_data]
  rw [if_neg (by omega : ¬ granted ≤ homa_data_offset hd)]
  by_cases htm : homa.throttle_min_bytes ≤ len - homa_data_offset hd
  · rw [if_pos htm, if_pos (check_nic_queue_force homa hd (clock_seq idx))]
    simp
  · rw [if_neg htm]
    simp

/-- C4 (counterexample): a pacer iteration on a throttled RPC with two
fully granted small packets (remaining bytes below throttle_min_bytes, so
the NIC-queue check is skipped) transmits two packets, not exactly one. -/
theorem pacer_step_can_send_two_packets :
    ((homa_pacer_step (fun _ => 0) sampleHoma 0
        [⟨1, { length := 100, packets := [sampleSkbA, sampleSkbB], num_skbs := 2,
               next_packet := [sampleSkbA, sampleSkbB], unscheduled := 10000,
               granted := 100, sched_priority := 0 }⟩]).sent).length = 2 := by
  decide

/-- C4 (amended): a pacer iteration transmits via homa_xmit_data with
force = true, which sends at least one packet (possibly several) whenever
the first throttled RPC has an untransmitted packet below its grant
frontier; the RPC is unlinked from the throttled list if and only if
afterwards it has no more packets to send or the next packet is at or
beyond granted. -/
theorem homa_pacer_step_spec (clock_seq : Nat → Nat) (homa : homa_state)
    (idx : Nat) (rpc : homa_rpc) (rest : List homa_rpc) (hd : Skb)
    (tl : List Skb) (h1 : rpc.msgout.next_packet = hd :: tl)
    (h2 : homa_data_offset hd < rpc.msgout.granted) :
    (homa_pacer_step clock_seq homa idx (rpc :: rest)).sent
      = (homa_xmit_data clock_seq rpc.msgout.length rpc.msgout.granted homa
          rpc.msgout.next_packet true idx).sent ∧
    (homa_pacer_step clock_seq homa idx (rpc :: rest)).sent ≠ [] ∧
    (((homa_xmit_data clock_seq rpc.msgout.length rpc.msgout.granted homa
          rpc.msgout.next_packet true idx).rest = [] ∨
      (∃ hd2 tl2, (homa_xmit_data clock_seq rpc.msgout.length rpc.msgout.granted
          homa rpc.msgout.next_packet true idx).rest = hd2 :: tl2 ∧
        rpc.msgout.granted ≤ homa_data_offset hd2)) →
      (homa_pacer_step clock_seq homa idx (rpc :: rest)).throttled = rest) ∧
    (∀ hd2 tl2, (homa_xmit_data clock_seq rpc.msgout.length rpc.msgout.granted
          homa rpc.msgout.next_packet true idx).rest = hd2 :: tl2 →
      homa_data_offset hd2 < rpc.msgout.granted →
      (homa_pacer_step clock_seq homa idx (rpc :: rest)).throttled
        = { rpc with msgout := { rpc.msgout with next_packet :=
            (homa_xmit_data clock_seq rpc.msgout.length rpc.msgout.granted homa
              rpc.msgout.next_packet true idx).rest } } :: rest) := by
  have hsend : (homa_xmit_data clock_seq rpc.msgout.length rpc.msgout.granted
      homa rpc.msgout.next_packet true idx).sent ≠ [] := by
    rw [h1]
    exact homa_xmit_data_force_sends clock_seq rpc.msgout.length
      rpc.msgout.granted homa idx hd tl h2
  refine ⟨?_, ?_, ?_, ?_⟩
  · simp only [homa_pacer_step]
    split <;> rfl
  · simp only [homa_pacer_step]
    split
    · exact hsend
    · exact hsend
  · intro hdone
    simp only [homa_pacer_step]
    rcases hdone with hnil | ⟨hd2, tl2, hrest, hge⟩
    · rw [if_pos (by rw [hnil]; rfl)]
    · rw [if_pos (by rw [hrest]; simpa [pacer_exhausted] using hge)]
  · intro hd2 tl2 hrest hlt
    simp only [homa_pacer_step]
    rw [if_neg (by rw [hrest]; simp [pacer_exhausted]; omega)]

/-- C4 (witness): the amended pacer-iteration property evaluated on a
concrete throttled RPC with one granted packet. -/
theorem homa_pacer_step_spec_witness :
    (homa_pacer_step (fun _ => 0) sampleHoma 0
        [⟨1, { length := 100, packets := [sampleSkbA], num_skbs := 1,
               next_packet := [sampleSkbA], unscheduled := 10000,
               granted := 100, sched_priority := 0 }⟩]).sent
      = (homa_xmit_data (fun _ => 0) 100 100 sampleHoma [sampleSkbA] true 0).sent ∧
    (homa_pacer_step (fun _ => 0) sampleHoma 0
        [⟨1, { length := 100, packets := [sampleSkbA], num_skbs := 1,
               next_packet := [sampleSkbA], unscheduled := 10000,
               granted := 100, sched_priority := 0 }⟩]).sent ≠ [] :=
  ⟨((homa_pacer_step_spec (fun _ => 0) sampleHoma 0
      ⟨1, { length := 100, packets := [sampleSkbA], num_skbs := 1,
            next_packet := [sampleSkbA], unscheduled := 10000,
            granted := 100, sched_priority := 0 }⟩ [] sampleSkbA []
      rfl (by decide)).1),
   ((homa_pacer_step_spec (fun _ => 0) sampleHoma 0
      ⟨1, { length := 100, packets := [sampleSkbA], num_skbs := 1,
            next_packet := [sampleSkbA], unscheduled := 10000,
            granted := 100, sched_priority := 0 }⟩ [] sampleSkbA []
      rfl (by decide)).2.1)⟩

/-- The remaining-bytes value homa_add_to_throttled computes for a
candidate on the throttled list: msgout.length minus the offset of the
next untransmitted packet, or 0 when there is no next packet (the pacer
might have just transmitted the last packet of the candidate). -/
def throttle_bytes_left (rpc : homa_rpc) : Nat :=
  if rpc.msgout.next_packet = [] then 0
  else rpc.msgout.length - next_offset rpc.msgout

/-- The list_for_each_entry_rcu scan of homa_add_to_throttled: insert rpc
before the first candidate with strictly more remaining bytes, or append
at the tail if there is none. -/
def throttle_list_scan (rpc : homa_rpc) (bytes_left : Nat) :
    List homa_rpc → List homa_rpc
  | [] => [rpc]
  | candidate :: rest =>
    if bytes_left < throttle_bytes_left candidate then rpc :: candidate :: rest
    else candidate :: throttle_list_scan rpc bytes_left rest

/-- homa_add_to_throttled from homa_outgoing.c.  The O(1) emptiness test
on rpc->throttled_links (the RPC is already linked into
homa->throttled_rpcs) becomes a membership test on the list; bytes_left
for the inserted RPC is computed without a null check on next_packet, as
in the source (callers guarantee a next packet exists). -/
def homa_add_to_throttled (rpc : homa_rpc) (throttled_rpcs : List homa_rpc) :
    List homa_rpc :=
  if rpc ∈ throttled_rpcs then throttled_rpcs
  else throttle_list_scan rpc
      (rpc.msgout.length - next_offset rpc.msgout) throttled_rpcs

/-- Everything on the list after the insertion scan is the inserted RPC or
was already there. -/
lemma throttle_list_scan_mem (rpc : homa_rpc) (bytes_left : Nat) :
    ∀ (l : List homa_rpc) (x : homa_rpc),
      x ∈ throttle_list_scan rpc bytes_left l → x = rpc ∨ x ∈ l := by
  intro l
  induction l with
  | nil => intro x hx; simp [throttle_list_scan] at hx; exact Or.inl hx
  | cons c rest ih =>
    intro x hx
    simp only [throttle_list_scan] at hx
    by_cases hlt : bytes_left < throttle_bytes_left c
    · rw [if_pos hlt] at hx
      simp only [List.mem_cons] at hx ⊢
      tauto
    · rw [if_neg hlt] at hx
      simp only [List.mem_cons] at hx ⊢
      rcases hx with rfl | hx
      · tauto
      · rcases ih x hx with h | h <;> tauto

/-- The inserted RPC is on the list after the insertion scan. -/
lemma throttle_list_scan_self_mem (rpc : homa_rpc) (bytes_left : Nat) :
    ∀ l : List homa_rpc, rpc ∈ throttle_list_scan rpc bytes_left l := by
  intro l
  induction l with
  | nil => simp [throttle_list_scan]
  | cons c rest ih =>
    simp only [throttle_list_scan]
    by_cases hlt : bytes_left < throttle_bytes_left c
    · rw [if_pos hlt]; exact List.mem_cons_self _ _
    · rw [if_neg hlt]; exact List.mem_cons_of_mem _ ih

/-- The insertion scan preserves ascending order of remaining bytes. -/
lemma throttle_list_scan_sorted (rpc : homa_rpc) (bytes_left : Nat)
    (hkey : throttle_bytes_left rpc = bytes_left) :
    ∀ l : List homa_rpc,
      l.Pairwise (fun a b => throttle_bytes_left a ≤ throttle_bytes_left b) →
      (throttle_list_scan rpc bytes_left l).Pairwise
        (fun a b => throttle_bytes_left a ≤ throttle_bytes_left b) := by
  intro l
  induction l with
  | nil => intro _; simp [throttle_list_scan]
  | cons c rest ih =>
    intro hp
    rw [List.pairwise_cons] at hp
    obtain ⟨hc, hrest⟩ := hp
    simp only [throttle_list_scan]
    by_cases hlt : bytes_left < throttle_bytes_left c
    · rw [if_pos hlt]
      refine List.Pairwise.cons ?_ (List.Pairwise.cons hc hrest)
      intro y hy
      simp only [List.mem_cons] at hy
      rcases hy with rfl | hy
      · omega
      · have := hc y hy
        omega
    · rw [if_neg hlt]
      refine List.Pairwise.cons ?_ (ih hrest)
      intro y hy
      rcases throttle_list_scan_mem rpc bytes_left rest y hy with rfl | hy
      · omega
      · exact hc y hy

/-- C5: if the throttled list is in ascending order of remaining outbound
bytes before a call to homa_add_to_throttled for an RPC that still has a
next packet, it is in ascending order afterwards: every RPC on the list is
preceded only by RPCs with at most as many remaining bytes. -/
theorem homa_add_to_throttled_sorted (rpc : homa_rpc) (lst : List homa_rpc)
    (hs : lst.Pairwise (fun a b => throttle_bytes_left a ≤ throttle_bytes_left b))
    (hn : rpc.msgout.next_packet ≠ []) :
    (homa_add_to_throttled rpc lst).Pairwise
      (fun a b => throttle_bytes_left a ≤ throttle_bytes_left b) := by
  by_cases hm : rpc ∈ lst
  · simpa [homa_add_to_throttled, if_pos hm] using hs
  · rw [homa_add_to_throttled, if_neg hm]
    refine throttle_list_scan_sorted rpc _ ?_ lst hs
    simp [throttle_bytes_left, hn]

/-- C5 (witness): inserting an RPC with 30 remaining bytes into a sorted
throttled list with remaining bytes 10 and 60 keeps the list sorted. -/
theorem homa_add_to_throttled_sorted_witness :
    ([⟨1, { length := 60, packets := [⟨[⟨50, 10⟩], 1, 60, 60, 0, 98⟩],
            num_skbs := 1, next_packet := [⟨[⟨50, 10⟩], 1, 60, 60, 0, 98⟩],
            unscheduled := 10000, granted := 60, sched_priority := 0 }⟩,
      ⟨2, { length := 60, packets := [⟨[⟨0, 60⟩], 1, 60, 60, 0, 108⟩],
            num_skbs := 1, next_packet := [⟨[⟨0, 60⟩], 1, 60, 60, 0, 108⟩],
            unscheduled := 10000, granted := 60, sched_priority := 0 }⟩] :
        List homa_rpc).Pairwise
      (fun a b => throttle_bytes_left a ≤ throttle_bytes_left b) ∧
    (⟨3, { length := 30, packets := [⟨[⟨0, 30⟩], 1, 30, 30, 0, 78⟩],
           num_skbs := 1, next_packet := [⟨[⟨0, 30⟩], 1, 30, 30, 0, 78⟩],
           unscheduled := 10000, granted := 30, sched_priority := 0 }⟩ :
        homa_rpc).msgout.next_packet ≠ [] ∧
    (homa_add_to_throttled
      ⟨3, { length := 30, packets := [⟨[⟨0, 30⟩], 1, 30, 30, 0, 78⟩],
            num_skbs := 1, next_packet := [⟨[⟨0, 30⟩], 1, 30, 30, 0, 78⟩],
            unscheduled := 10000, granted := 30, sched_priority := 0 }⟩
      [⟨1, { length := 60, packets := [⟨[⟨50, 10⟩], 1, 60, 60, 0, 98⟩],
             num_skbs := 1, next_packet := [⟨[⟨50, 10⟩], 1, 60, 60, 0, 98⟩],
             unscheduled := 10000, granted := 60, sched_priority := 0 }⟩,
       ⟨2, { length := 60, packets := [⟨[⟨0, 60⟩], 1, 60, 60, 0, 108⟩],
             num_skbs := 1, next_packet := [⟨[⟨0, 60⟩], 1, 60, 60, 0, 108⟩],
             unscheduled := 10000, granted := 60, sched_priority := 0 }⟩]).Pairwise
      (fun a b => throttle_bytes_left a ≤ throttle_bytes_left b) :=
  ⟨by decide, by decide,
    homa_add_to_throttled_sorted _ _ (by decide) (by decide)⟩

/-- C10: homa_add_to_throttled is idempotent: when the RPC is already
linked on the throttled list the call returns immediately and leaves the
list unchanged, so a second call for the same RPC has no further effect. -/
theorem homa_add_to_throttled_idempotent (rpc : homa_rpc)
    (lst : List homa_rpc) :
    (rpc ∈ lst → homa_add_to_throttled rpc lst = lst) ∧
    homa_add_to_throttled rpc (homa_add_to_throttled rpc lst)
      = homa_add_to_throttled rpc lst := by
  constructor
  · intro hm
    simp [homa_add_to_throttled, if_pos hm]
  · by_cases hm : rpc ∈ lst
    · simp [homa_add_to_throttled, if_pos hm]
    · have hmem : rpc ∈ homa_add_to_throttled rpc lst := by
        rw [homa_add_to_throttled, if_neg hm]
        exact throttle_list_scan_self_mem rpc _ lst
      rw [homa_add_to_throttled, if_pos hmem]

/-- C10 (witness): adding an RPC that is already on a concrete throttled
list leaves the list unchanged, and a double add equals a single add. -/
theorem homa_add_to_throttled_idempotent_witness :
    homa_add_to_throttled
      ⟨1, { length := 60, packets := [⟨[⟨50, 10⟩], 1, 60, 60, 0, 98⟩],
            num_skbs := 1, next_packet := [⟨[⟨50, 10⟩], 1, 60, 60, 0, 98⟩],
            unscheduled := 10000, granted := 60, sched_priority := 0 }⟩
      [⟨1, { length := 60, packets := [⟨[⟨50, 10⟩], 1, 60, 60, 0, 98⟩],
             num_skbs := 1, next_packet := [⟨[⟨50, 10⟩], 1, 60, 60, 0, 98⟩],
             unscheduled := 10000, granted := 60, sched_priority := 0 }⟩]
      = [⟨1, { length := 60, packets := [⟨[⟨50, 10⟩], 1, 60, 60, 0, 98⟩],
               num_skbs := 1, next_packet := [⟨[⟨50, 10⟩], 1, 60, 60, 0, 98⟩],
               unscheduled := 10000, granted := 60, sched_priority := 0 }⟩] ∧
    homa_add_to_throttled
      ⟨2, { length := 60, packets := [⟨[⟨0, 60⟩], 1, 60, 60, 0, 108⟩],
            num_skbs := 1, next_packet := [⟨[⟨0, 60⟩], 1, 60, 60, 0, 108⟩],
            unscheduled := 10000, granted := 60, sched_priority := 0 }⟩
      (homa_add_to_throttled
        ⟨2, { length := 60, packets := [⟨[⟨0, 60⟩], 1, 60, 60, 0, 108⟩],
              num_skbs := 1, next_packet := [⟨[⟨0, 60⟩], 1, 60, 60, 0, 108⟩],
              unscheduled := 10000, granted := 60, sched_priority := 0 }⟩ [])
      = homa_add_to_throttled
          ⟨2, { length := 60, packets := [⟨[⟨0, 60⟩], 1, 60, 60, 0, 108⟩],
                num_skbs := 1, next_packet := [⟨[⟨0, 60⟩], 1, 60, 60, 0, 108⟩],
                unscheduled := 10000, granted := 60, sched_priority := 0 }⟩ [] :=
  ⟨(homa_add_to_throttled_idempotent _ _).1 (by decide),
   (homa_add_to_throttled_idempotent _ _).2⟩

/-- Transport-level length of the fresh sk_buff homa_resend_data builds
for one retransmitted segment: the data_header bytes without the embedded
first data_segment, then the segment header and payload, padded up to
HOMA_MAX_HEADER when shorter. -/
def resend_skb_len (seg_length : Nat) : Nat :=
  let l := (sizeof_data_header - sizeof_data_segment)
      + (sizeof_data_segment + seg_length)
  if l < HOMA_MAX_HEADER then l + (HOMA_MAX_HEADER - l) else l

/-- A retransmitted packet as homa_resend_data constructs it: a fresh
copy of the segment (not the original sk_buff), with retransmit set to 1
and incoming refreshed; force records the force argument passed to
homa_check_nic_queue for it. -/
structure resend_pkt where
  offset : Nat
  seg_length : Nat
  retransmit : Nat
  incoming : Nat
  force : Bool
  skb_len : Nat
deriving Repr, DecidableEq

/-- The packet homa_resend_data builds for one overlapping segment. -/
def resend_mk (e : Nat) (seg : DataSeg) : resend_pkt :=
  { offset := seg.offset
    seg_length := seg.segment_length
    retransmit := 1
    incoming := if seg.offset + seg.segment_length > e then
        seg.offset + seg.segment_length else e
    force := true
    skb_len := resend_skb_len seg.segment_length }

/-- The inner loop of homa_resend_data over the data segments of one
sk_buff.  The Bool records whether the early return (end ≤ seg.offset)
that terminates the whole function fired. -/
def homa_resend_segs (start e : Nat) : List DataSeg → List resend_pkt × Bool
  | [] => ([], false)
  | seg :: rest =>
    if e ≤ seg.offset then ([], true)
    else if seg.offset + seg.segment_length ≤ start then
      homa_resend_segs start e rest
    else
      let r := homa_resend_segs start e rest
      (resend_mk e seg :: r.1, r.2)

/-- homa_resend_data from homa_outgoing.c: scan the data segments of every
packet of the message (gso_segs of them per sk_buff, at least one) and
retransmit a fresh copy of each segment that overlaps [start, end),
stopping at the first segment at or beyond end.  Allocation of each copy
is assumed to succeed (the ENOMEM path would skip a segment). -/
def homa_resend_data (start e : Nat) : List Skb → List resend_pkt
  | [] => []
  | skb :: rest =>
    let count := if skb.gso_segs < 1 then 1 else skb.gso_segs
    let r := homa_resend_segs start e (skb.segs.take count)
    if r.2 then r.1 else r.1 ++ homa_resend_data start e rest

/-- A segment overlaps the retransmission range [start, e). -/
def seg_overlaps (start e : Nat) (seg : DataSeg) : Bool :=
  decide (seg.offset < e) && decide (start < seg.offset + seg.segment_length)

/-- On a segment list with non-decreasing offsets, the inner resend loop
retransmits exactly the overlapping segments, and fires the early return
exactly when some segment lies at or beyond the range end. -/
lemma homa_resend_segs_spec (start e : Nat) :
    ∀ l : List DataSeg, l.Pairwise (fun a b => a.offset ≤ b.offset) →
    homa_resend_segs start e l
      = ((l.filter (seg_overlaps start e)).map (resend_mk e),
         l.any (fun s => decide (e ≤ s.offset))) := by
  intro l
  induction l with
  | nil => intro _; rfl
  | cons seg rest ih =>
    intro hp
    rw [List.pairwise_cons] at hp
    obtain ⟨hfirst, hrest⟩ := hp
    simp only [homa_resend_segs]
    by_cases h1 : e ≤ seg.offset
    · rw [if_pos h1]
      have hfilter : (seg :: rest).filter (seg_overlaps start e) = [] := by
        rw [List.filter_eq_nil_iff]
        intro a ha
        simp only [List.mem_cons] at ha
        have : e ≤ a.offset := by
          rcases ha with rfl | ha
          · exact h1
          · exact Nat.le_trans h1 (hfirst a ha)
        simp [seg_overlaps]
        omega
      rw [hfilter]
      simp [List.any_cons, h1]
    · rw [if_neg h1]
      by_cases h2 : seg.offset + seg.segment_length ≤ start
      · rw [if_pos h2, ih hrest]
        have hno : seg_overlaps start e seg = false := by
          simp [seg_overlaps]
          omega
        simp [List.filter_cons, hno, List.any_cons, h1]
      · rw [if_neg h2, ih hrest]
        have hyes : seg_overlaps start e seg = true := by
          simp [seg_overlaps]
          omega
        simp [List.filter_cons, hyes, List.any_cons, h1]

/-- C6: for a message whose segments appear in non-decreasing offset
order with gso_segs counting the segments of each sk_buff,
homa_resend_data start end retransmits exactly the segments overlapping
[start, end), each as a fresh copy carrying retransmit = 1,
incoming = max(offset + length, end), and checked into the NIC queue
with force = true. -/
theorem homa_resend_data_spec (start e : Nat) (pkts : List Skb)
    (hgso : ∀ skb ∈ pkts, skb.gso_segs = skb.segs.length)
    (hsort : (pkts.flatMap Skb.segs).Pairwise (fun a b => a.offset ≤ b.offset)) :
    homa_resend_data start e pkts
      = (((pkts.flatMap Skb.segs).filter (seg_overlaps start e)).map (resend_mk e)) := by
  induction pkts with
  | nil => rfl
  | cons skb rest ih =>
    rw [List.flatMap_cons] at hsort ⊢
    rw [List.pairwise_append] at hsort
    obtain ⟨hp1, hp2, hcross⟩ := hsort
    have htake : skb.segs.take (if skb.gso_segs < 1 then 1 else skb.gso_segs)
        = skb.segs := by
      have hg := hgso skb (List.mem_cons_self _ _)
      cases hsegs : skb.segs with
      | nil => rw [hg, hsegs]; rfl
      | cons s ss =>
        rw [hg, hsegs]
        have : ¬ (s :: ss).length < 1 := by simp
        rw [if_neg this]
        exact List.take_length _
    simp only [homa_resend_data, htake, homa_resend_segs_spec start e skb.segs hp1]
    by_cases hany : skb.segs.any (fun s => decide (e ≤ s.offset)) = true
    · rw [if_pos hany]
      obtain ⟨s, hs, hse⟩ := List.any_eq_true.mp hany
      have hfilter2 : (rest.flatMap Skb.segs).filter (seg_overlaps start e) = [] := by
        rw [List.filter_eq_nil_iff]
        intro b hb
        have : e ≤ b.offset :=
          Nat.le_trans (of_decide_eq_true hse) (hcross s hs b hb)
        simp [seg_overlaps]
        omega
      rw [List.filter_append, hfilter2, List.append_nil]
    · rw [if_neg hany]
      rw [List.filter_append, List.map_append]
      congr 1
      exact ih (fun s hs => hgso s (List.mem_cons_of_mem _ hs)) hp2

/-- C6 (witness): retransmitting range [20, 60) of a concrete 100-byte
message with two 50-byte segments retransmits exactly both segments. -/
theorem homa_resend_data_spec_witness :
    (∀ skb ∈ [(⟨[⟨0, 50⟩, ⟨50, 50⟩], 2, 100, 100, 0, 156⟩ : Skb)],
        skb.gso_segs = skb.segs.length) ∧
    (([(⟨[⟨0, 50⟩, ⟨50, 50⟩], 2, 100, 100, 0, 156⟩ : Skb)].flatMap
        Skb.segs).Pairwise (fun a b => a.offset ≤ b.offset)) ∧
    homa_resend_data 20 60 [(⟨[⟨0, 50⟩, ⟨50, 50⟩], 2, 100, 100, 0, 156⟩ : Skb)]
      = ((([(⟨[⟨0, 50⟩, ⟨50, 50⟩], 2, 100, 100, 0, 156⟩ : Skb)].flatMap
            Skb.segs).filter (seg_overlaps 20 60)).map (resend_mk 60)) :=
  ⟨by decide, by decide,
    homa_resend_data_spec 20 60 _ (by decide) (by decide)⟩

/-- The do-while loop of homa_fill_packets that adds data segments to one
sk_buff: each iteration takes seg_size = min(bytes_left, max_pkt_data)
bytes at offset len - bytes_left and decrements available (which starts at
max_gso_data).  The 0 < seg_size conjunct added to the loop guard makes
the function total where the C loop would not terminate (it can fail only
when max_pkt_data = 0, in which case the C code loops forever); callers
establish 0 < max_pkt_data, under which the guards agree. -/
def fill_segs (max_pkt_data len : Nat) (available bytes_left : Nat) :
    List DataSeg × Nat :=
  let seg_size := min bytes_left max_pkt_data
  let bytes_left2 := bytes_left - seg_size
  let available2 := available - seg_size
  if h : 0 < available2 ∧ 0 < bytes_left2 ∧ 0 < seg_size then
    let r := fill_segs max_pkt_data len available2 bytes_left2
    (⟨len - bytes_left, seg_size⟩ :: r.1, r.2)
  else ([⟨len - bytes_left, seg_size⟩], bytes_left2)
termination_by bytes_left
decreasing_by
  simp_wf
  omega

/-- The transport-level length of a data sk_buff assembled by
homa_fill_packets: the data_header without its embedded first segment,
one segment header per segment plus the payload bytes, and the final
padding that keeps the last (possibly short) GSO packet at least
HOMA_MAX_HEADER bytes long. -/
def fill_transport_len (segs : List DataSeg) : Nat :=
  let base := (sizeof_data_header - sizeof_data_segment)
      + (segs.map (fun s => sizeof_data_segment + s.segment_length)).sum
  let last_pkt_length := (segs.getLast?.elim 0 DataSeg.segment_length)
      + sizeof_data_header
  if last_pkt_length < HOMA_MAX_HEADER then
    base + (HOMA_MAX_HEADER - last_pkt_length)
  else base

/-- One iteration of the outer loop of homa_fill_packets: build one
sk_buff (the incoming field is max(len - remaining, unsched)) and return
it together with the remaining byte count.  homa_fill_packets leaves the
retransmit byte unwritten; it is modelled here as the 0
homa_message_out_init will store into it. -/
def fill_skb (max_pkt_data max_gso_data unsched len bytes_left : Nat) :
    Skb × Nat :=
  let r := fill_segs max_pkt_data len max_gso_data bytes_left
  ({ segs := r.1
     gso_segs := r.1.length
     message_length := len
     incoming := if len - r.2 > unsched then len - r.2 else unsched
     retransmit := 0
     transport_len := fill_transport_len r.1 }, r.2)

/-- fill_segs always produces at least one segment (the do-while body runs
at least once). -/
lemma fill_segs_fst_ne_nil (max_pkt_data len available bytes_left : Nat) :
    (fill_segs max_pkt_data len available bytes_left).1 ≠ [] := by
  rw [fill_segs]
  split <;> simp

/-- fill_segs consumes at least one byte when bytes are left and
max_pkt_data is positive. -/
lemma fill_segs_snd_lt (max_pkt_data len : Nat) :
    ∀ bytes_left available, 0 < bytes_left → 0 < max_pkt_data →
    (fill_segs max_pkt_data len available bytes_left).2 < bytes_left := by
  intro bytes_left
  induction bytes_left using Nat.strong_induction_on with
  | _ bytes_left ih =>
    intro available hb hm
    rw [fill_segs]
    split
    · next h =>
      have hlt : bytes_left - min bytes_left max_pkt_data < bytes_left := by
        omega
      have := ih (bytes_left - min bytes_left max_pkt_data) hlt
        (available - min bytes_left max_pkt_data) h.2.1 hm
      simpa using Nat.lt_trans this hlt
    · simp only
      omega

/-- The outer packet-building loop of homa_fill_packets.  The
0 < max_pkt_data conjunct in the guard, like in fill_segs, only rules out
the configurations on which the C loop diverges. -/
def fill_skbs (max_pkt_data max_gso_data unsched len bytes_left : Nat) :
    List Skb :=
  if h : 0 < bytes_left ∧ 0 < max_pkt_data then
    let r := fill_skb max_pkt_data max_gso_data unsched len bytes_left
    r.1 :: fill_skbs max_pkt_data max_gso_data unsched len r.2
  else []
termination_by bytes_left
decreasing_by
  simp_wf
  exact fill_segs_snd_lt max_pkt_data len bytes_left max_gso_data h.1 h.2

/-- The fields of struct homa_peer that homa_fill_packets reads:
dst_mtu(peer->dst) and peer->dst->dev->gso_max_size. -/
structure homa_peer where
  mtu : Nat
  gso_max_size : Nat
deriving Repr, DecidableEq

/-- The EINVAL errno value. -/
def EINVAL : Int := 22

/-- The ENOMEM errno value. -/
def ENOMEM : Int := 12

/-- homa_fill_packets from homa_outgoing.c.  alloc_skb and copy_from_user
are assumed to succeed, so the ENOMEM and EFAULT error paths are not
taken; the arithmetic that sizes the packets and rounds the unscheduled
bytes is as in the source. -/
def homa_fill_packets (homa : homa_state) (peer : homa_peer) (len : Nat) :
    Except Int (List Skb) :=
  if len > HOMA_MAX_MESSAGE_SIZE ∨ len = 0 then Except.error (-EINVAL)
  else
    let mtu := peer.mtu
    let max_pkt_data := mtu - HOMA_IPV4_HEADER_LENGTH - sizeof_data_header
    if len ≤ max_pkt_data then
      Except.ok (fill_skbs max_pkt_data len len len len)
    else
      let gso_size0 := peer.gso_max_size
      let gso_size := if gso_size0 > homa.max_gso_size then homa.max_gso_size
          else gso_size0
      let bufs_per_gso0 := gso_size / mtu
      let bufs_per_gso := if bufs_per_gso0 = 0 then 1 else bufs_per_gso0
      let mtu2 := if bufs_per_gso0 = 0 then gso_size else mtu
      let max_pkt_data2 := if bufs_per_gso0 = 0 then
          mtu2 - HOMA_IPV4_HEADER_LENGTH - sizeof_data_header else max_pkt_data
      let max_gso_data := bufs_per_gso * max_pkt_data2
      let unsched0 := homa.rtt_bytes + max_gso_data - 1
      let unsched1 := unsched0 - unsched0 % max_gso_data
      let unsched := if unsched1 > len then len else unsched1
      Except.ok (fill_skbs max_pkt_data2 max_gso_data unsched len len)

/-- Transport-level length of the sk_buff __homa_xmit_control builds: the
caller-supplied contents, zero-padded up to HOMA_MAX_HEADER when
shorter. -/
def xmit_control_skb_len (length : Nat) : Nat :=
  let extra_bytes : Int := (HOMA_MAX_HEADER : Int) - (length : Int)
  if 0 < extra_bytes then length + extra_bytes.toNat else length

/-- C8: homa_fill_packets fails synchronously with EINVAL, building no
packets, for every message length that is zero or exceeds
HOMA_MAX_MESSAGE_SIZE = 1,000,000. -/
theorem homa_fill_packets_invalid_length (homa : homa_state)
    (peer : homa_peer) (len : Nat)
    (h : len = 0 ∨ HOMA_MAX_MESSAGE_SIZE < len) :
    homa_fill_packets homa peer len = Except.error (-EINVAL) := by
  rw [homa_fill_packets, if_pos]
  rcases h with h | h
  · exact Or.inr h
  · exact Or.inl h

/-- A sample peer: Ethernet MTU 1500, gso_max_size 10000. -/
def samplePeer : homa_peer := { mtu := 1500, gso_max_size := 10000 }

/-- C8 (witness): length 0 and length 1,000,001 both yield EINVAL. -/
theorem homa_fill_packets_invalid_length_witness :
    ((0 : Nat) = 0 ∨ HOMA_MAX_MESSAGE_SIZE < 0) ∧
    homa_fill_packets sampleHoma samplePeer 0 = Except.error (-EINVAL) ∧
    ((1000001 : Nat) = 0 ∨ HOMA_MAX_MESSAGE_SIZE < 1000001) ∧
    homa_fill_packets sampleHoma samplePeer 1000001 = Except.error (-EINVAL) :=
  ⟨Or.inl rfl,
   homa_fill_packets_invalid_length sampleHoma samplePeer 0 (Or.inl rfl),
   Or.inr (by decide),
   homa_fill_packets_invalid_length sampleHoma samplePeer 1000001
     (Or.inr (by decide))⟩

/-- The sk_buff built for a retransmitted segment is at least
HOMA_MAX_HEADER bytes. -/
lemma resend_skb_len_ge (seg_length : Nat) :
    HOMA_MAX_HEADER ≤ resend_skb_len seg_length := by
  simp only [resend_skb_len, sizeof_data_header, sizeof_data_segment,
    HOMA_MAX_HEADER]
  split <;> omega

/-- The sk_buff built for a control packet is at least HOMA_MAX_HEADER
bytes. -/
lemma xmit_control_skb_len_ge (length : Nat) :
    HOMA_MAX_HEADER ≤ xmit_control_skb_len length := by
  simp only [xmit_control_skb_len, HOMA_MAX_HEADER]
  split
  · next h => omega
  · next h => omega

/-- A data sk_buff with at least one segment is padded to at least
HOMA_MAX_HEADER bytes. -/
lemma fill_transport_len_ge (segs : List DataSeg) (h : segs ≠ []) :
    HOMA_MAX_HEADER ≤ fill_transport_len segs := by
  have hlast := List.getLast?_eq_getLast_of_ne_nil h
  have hmem : segs.getLast h ∈ segs := List.getLast_mem h
  have hsum : sizeof_data_segment + (segs.getLast h).segment_length
      ≤ (segs.map (fun s => sizeof_data_segment + s.segment_length)).sum := by
    exact List.single_le_sum (fun x _ => Nat.zero_le x) _
      (List.mem_map_of_mem _ hmem)
  simp only [fill_transport_len, hlast, Option.elim_some, sizeof_data_header,
    sizeof_data_segment, HOMA_MAX_HEADER] at *
  split <;> omega

/-- Every sk_buff produced by the outer loop of homa_fill_packets is
padded to at least HOMA_MAX_HEADER bytes. -/
lemma fill_skbs_transport_len_ge (max_pkt_data max_gso_data unsched len : Nat) :
    ∀ bytes_left, ∀ skb ∈ fill_skbs max_pkt_data max_gso_data unsched len
        bytes_left, HOMA_MAX_HEADER ≤ skb.transport_len := by
  intro bytes_left
  induction bytes_left using Nat.strong_induction_on with
  | _ bytes_left ih =>
    intro skb hskb
    rw [fill_skbs] at hskb
    split at hskb
    · next hcond =>
      simp only [List.mem_cons] at hskb
      rcases hskb with rfl | hskb
      · exact fill_transport_len_ge _ (fill_segs_fst_ne_nil _ _ _ _)
      · exact ih _ (fill_segs_snd_lt max_pkt_data len bytes_left max_gso_data
          hcond.1 hcond.2) skb hskb
    · simp at hskb

/-- Every packet of the inner resend loop is padded to at least
HOMA_MAX_HEADER bytes. -/
lemma homa_resend_segs_skb_len_ge (start e : Nat) :
    ∀ l, ∀ pkt ∈ (homa_resend_segs start e l).1,
      HOMA_MAX_HEADER ≤ pkt.skb_len := by
  intro l
  induction l with
  | nil => intro pkt hp; simp [homa_resend_segs] at hp
  | cons seg rest ih =>
    intro pkt hp
    simp only [homa_resend_segs] at hp
    by_cases h1 : e ≤ seg.offset
    · rw [if_pos h1] at hp; simp at hp
    · rw [if_neg h1] at hp
      by_cases h2 : seg.offset + seg.segment_length ≤ start
      · rw [if_pos h2] at hp
        exact ih pkt hp
      · rw [if_neg h2] at hp
        simp only [List.mem_cons] at hp
        rcases hp with rfl | hp
        · exact resend_skb_len_ge _
        · exact ih pkt hp

/-- Every packet homa_resend_data retransmits is padded to at least
HOMA_MAX_HEADER bytes. -/
lemma homa_resend_data_skb_len_ge (start e : Nat) :
    ∀ pkts, ∀ pkt ∈ homa_resend_data start e pkts,
      HOMA_MAX_HEADER ≤ pkt.skb_len := by
  intro pkts
  induction pkts with
  | nil => intro pkt hp; simp [homa_resend_data] at hp
  | cons skb rest ih =>
    intro pkt hp
    simp only [homa_resend_data] at hp
    split at hp <;> split at hp
    · exact homa_resend_segs_skb_len_ge start e _ pkt hp
    · rw [List.mem_append] at hp
      rcases hp with hp | hp
      · exact homa_resend_segs_skb_len_ge start e _ pkt hp
      · exact ih pkt hp
    · exact homa_resend_segs_skb_len_ge start e _ pkt hp
    · rw [List.mem_append] at hp
      rcases hp with hp | hp
      · exact homa_resend_segs_skb_len_ge start e _ pkt hp
      · exact ih pkt hp

/-- C9: every packet the transport builds is padded to a transport-level
length of at least HOMA_MAX_HEADER = 64 bytes: the data packets built by
homa_fill_packets, the control packets built by __homa_xmit_control, and
the fresh copies built by homa_resend_data. -/
theorem packets_padded_to_max_header :
    (∀ (homa : homa_state) (peer : homa_peer) (len : Nat) (skbs : List Skb),
      homa_fill_packets homa peer len = Except.ok skbs →
      ∀ skb ∈ skbs, HOMA_MAX_HEADER ≤ skb.transport_len) ∧
    (∀ length : Nat, HOMA_MAX_HEADER ≤ xmit_control_skb_len length) ∧
    (∀ (start e : Nat) (pkts : List Skb),
      ∀ pkt ∈ homa_resend_data start e pkts,
        HOMA_MAX_HEADER ≤ pkt.skb_len) := by
  refine ⟨?_, xmit_control_skb_len_ge, homa_resend_data_skb_len_ge⟩
  intro homa peer len skbs hok skb hskb
  simp only [homa_fill_packets] at hok
  split at hok
  · exact absurd hok (by simp)
  · split at hok
    · rw [Except.ok.injEq] at hok
      subst hok
      exact fill_skbs_transport_len_ge _ _ _ _ _ skb hskb
    · rw [Except.ok.injEq] at hok
      subst hok
      exact fill_skbs_transport_len_ge _ _ _ _ _ skb hskb

/-- C9 (witness): the padding bound evaluated on concrete packets from
all three builders: a 100-byte filled message, a 20-byte control packet,
and a retransmitted 30-byte segment. -/
theorem packets_padded_to_max_header_witness :
    homa_fill_packets sampleHoma samplePeer 100 = Except.ok [sampleSkb] ∧
    HOMA_MAX_HEADER ≤ sampleSkb.transport_len ∧
    HOMA_MAX_HEADER ≤ xmit_control_skb_len 20 ∧
    resend_mk 60 ⟨20, 30⟩
        ∈ homa_resend_data 20 60 [(⟨[⟨20, 30⟩], 1, 100, 100, 0, 86⟩ : Skb)] ∧
    HOMA_MAX_HEADER ≤ (resend_mk 60 (⟨20, 30⟩ : DataSeg)).skb_len := by
  have hok : homa_fill_packets sampleHoma samplePeer 100
      = Except.ok [sampleSkb] := by
    rw [homa_fill_packets]
    norm_num [sampleHoma, samplePeer, HOMA_MAX_MESSAGE_SIZE,
      HOMA_IPV4_HEADER_LENGTH, sizeof_data_header]
    rw [fill_skbs]
    norm_num [fill_skb]
    rw [fill_segs]
    norm_num [fill_transport_len, sampleSkb, sizeof_data_segment,
      sizeof_data_header, HOMA_MAX_HEADER]
    rw [fill_skbs]
    norm_num
  refine ⟨hok,
    packets_padded_to_max_header.1 sampleHoma samplePeer 100 [sampleSkb] hok
      sampleSkb (by decide),
    packets_padded_to_max_header.2.1 20,
    by decide,
    packets_padded_to_max_header.2.2 20 60
      [(⟨[⟨20, 30⟩], 1, 100, 100, 0, 86⟩ : Skb)] (resend_mk 60 ⟨20, 30⟩)
      (by decide)⟩

end HomaSpec
